import Mathlib

/-!
# Verification of the approval-queue engine

Shallow embedding of the approval-request tracker's core: the
`approval_requests` table, the `update_queue_positions` trigger function
(final version, migration 20250923082732), the `update_updated_at_column`
row trigger, the row-level security policies from the initial migration,
and the client call paths (`handleSubmit`, `handleApprovalAction`).

Rows are modelled as a structure over `Nat` ids and timestamps; the table
is a `List` of rows.  `ROW_NUMBER() OVER (ORDER BY created_at)` is
modelled with a deterministic tie-break on the primary key `id` (SQL
leaves tie order unspecified; any fixed total order models one execution).
-/

namespace ApprovalLane

inductive Status where
  | pending
  | approved
  | rejected
deriving DecidableEq, Repr, Inhabited

/-- One row of `public.approval_requests` (schema of the initial migration):
`id uuid PK`, `user_id uuid NOT NULL`, `title text NOT NULL`,
`content text`, `department text NOT NULL`, `status text NOT NULL`,
`queue_position integer` (nullable), `created_at`, `updated_at`. -/
structure Request where
  id : Nat
  user_id : Nat
  title : String
  content : Option String
  department : String
  status : Status
  queue_position : Option Nat
  created_at : Nat
  updated_at : Nat
deriving DecidableEq, Repr, Inhabited

abbrev DB := List Request

def isPending (r : Request) : Bool := r.status == .pending

/-- `WHERE status = 'pending'` over the table. -/
def pendingList (db : DB) : List Request := db.filter isPending

/-- Strict sort key of `ORDER BY created_at`, ties broken by id. -/
def keyLt (a b : Request) : Bool :=
  a.created_at < b.created_at || (a.created_at == b.created_at && a.id < b.id)

/-- `ROW_NUMBER() OVER (ORDER BY created_at)` of `r` within the set `S`. -/
def rankIn (S : List Request) (r : Request) : Nat :=
  1 + (S.filter (fun s => keyLt s r)).length

/-- The CTE `ranked_requests`: pending rows, excluding `NEW.id` when the
trigger fires for an UPDATE (`TG_OP = 'INSERT' OR id != NEW.id`). -/
def reindexSet (db : DB) (excl : Option Nat) : List Request :=
  db.filter (fun r => isPending r && excl != some r.id)

/-- Effect of the trigger's inner `UPDATE ... FROM ranked_requests` on one
row: rows of the CTE whose stored position differs from their rank are
rewritten (`queue_position IS DISTINCT FROM new_position` guard); each
such row-level UPDATE also fires `update_updated_at_column`, which sets
`updated_at = now()`. -/
def reindexRow (S : List Request) (now : Nat) (excl : Option Nat)
    (r : Request) : Request :=
  if isPending r && excl != some r.id
      && r.queue_position != some (rankIn S r) then
    { r with queue_position := some (rankIn S r), updated_at := now }
  else r

/-- The trigger's inner `UPDATE` statement over the whole table. -/
def reindex (db : DB) (excl : Option Nat) (now : Nat) : DB :=
  db.map (reindexRow (reindexSet db excl) now excl)

/-- Ids of the rows the inner `UPDATE` actually rewrites. -/
def reindexWrites (db : DB) (excl : Option Nat) : List Nat :=
  (db.filter (fun r => isPending r && excl != some r.id
      && r.queue_position != some (rankIn (reindexSet db excl) r))).map
    (fun r => r.id)

/-- `SELECT COUNT(*) FROM approval_requests WHERE status = 'pending' AND
created_at < t`. -/
def earlierCount (db : DB) (t : Nat) : Nat :=
  (db.filter (fun r => isPending r && r.created_at < t)).length

/-- `INSERT` into `approval_requests`.  The trigger
`update_queue_positions_trigger` (BEFORE INSERT) runs the function body
when `NEW.status = 'pending'`: it reindexes the existing pending rows
(the new row is not yet visible in a BEFORE INSERT trigger) and then sets
`NEW.queue_position = 1 + count(pending rows created strictly earlier)`,
reading the table after the inner UPDATE. -/
def insertRequest (db : DB) (new : Request) (now : Nat) : DB :=
  if isPending new then
    let db1 := reindex db none now
    db1 ++ [{ new with
      queue_position := some (1 + earlierCount db1 new.created_at) }]
  else
    db ++ [new]

/-- The SET list of an UPDATE statement: which columns it assigns and the
assigned values.  (`created_at` is never assigned by any call site.) -/
structure UpdateSpec where
  setsStatus : Bool
  newStatus : Status
  setsTitle : Bool
  newTitle : String
  setsContent : Bool
  newContent : Option String
  setsPos : Bool
  newPos : Option Nat
deriving Repr, Inhabited

def applySet (u : UpdateSpec) (r : Request) : Request :=
  { r with
    status := if u.setsStatus then u.newStatus else r.status
    title := if u.setsTitle then u.newTitle else r.title
    content := if u.setsContent then u.newContent else r.content
    queue_position := if u.setsPos then u.newPos else r.queue_position }

/-- The final trigger is `BEFORE INSERT OR UPDATE OF status`: on an
UPDATE it fires only when `status` is in the statement's SET list. -/
def queueTriggerFires (u : UpdateSpec) : Bool := u.setsStatus

/-- The function body's IF condition for `TG_OP = 'UPDATE'`:
`(OLD.status IS DISTINCT FROM NEW.status OR OLD.queue_position IS
DISTINCT FROM NEW.queue_position) AND (OLD.status = 'pending' OR
NEW.status = 'pending')`. -/
def triggerCond (old new : Request) : Bool :=
  (old.status != new.status || old.queue_position != new.queue_position)
    && (old.status == .pending || new.status == .pending)

/-- `UPDATE approval_requests SET ... WHERE id = tid`.  Row triggers run
BEFORE UPDATE in name order: `update_approval_requests_updated_at` sets
`NEW.updated_at = now()`, then `update_queue_positions_trigger` (only if
the statement sets `status`) runs the reindex and, when the row stays or
becomes pending, recomputes `NEW.queue_position`. -/
def updateRow (db : DB) (tid : Nat) (u : UpdateSpec) (now : Nat) : DB :=
  match db.find? (fun r => r.id == tid) with
  | none => db
  | some old =>
    let new1 := { applySet u old with updated_at := now }
    if queueTriggerFires u && triggerCond old new1 then
      let db1 := reindex db (some tid) now
      let new2 := if isPending new1 then
          { new1 with
            queue_position := some (1 + earlierCount db1 new1.created_at) }
        else new1
      db1.map (fun r => if r.id == tid then new2 else r)
    else
      db.map (fun r => if r.id == tid then new1 else r)

/-- `DELETE FROM approval_requests WHERE id = tid`.  In the final schema
(after migration 20250923082732) no trigger fires on DELETE: the old
statement-level trigger was dropped and the new one covers only
`INSERT OR UPDATE OF status`. -/
def deleteRequest (db : DB) (tid : Nat) : DB :=
  db.filter (fun r => r.id != tid)

/-- The queue position a client reads (0 when undefined). -/
def posOf (r : Request) : Nat := r.queue_position.getD 0

/-- Invariants I1/P1, P2 and definedness of positions for pending rows:
the pending rows' positions are a permutation of `1..n`, strictly earlier
creation means strictly smaller position, and every pending row has a
position. -/
def positionsOK (db : DB) : Prop :=
  ((pendingList db).map posOf).Perm (List.range' 1 (pendingList db).length)
  ∧ (∀ a ∈ pendingList db, ∀ b ∈ pendingList db,
      a.created_at < b.created_at → posOf a < posOf b)
  ∧ (∀ a ∈ pendingList db, a.queue_position ≠ none)

instance (db : DB) : Decidable (positionsOK db) := by
  unfold positionsOK
  infer_instance

/-- Every row of `P` stores exactly its dense rank within `P`. -/
def selfRanked (P : List Request) : Prop :=
  ∀ r ∈ P, r.queue_position = some (rankIn P r)

instance (P : List Request) : Decidable (selfRanked P) := by
  unfold selfRanked
  infer_instance

/-- An UPDATE statement that sets only `title` (no status, no
position). -/
def titleOnlySet (t : String) : UpdateSpec :=
  { setsStatus := false, newStatus := .pending, setsTitle := true,
    newTitle := t, setsContent := false, newContent := none,
    setsPos := false, newPos := none }

/-- Row builder for concrete test states. -/
def mkReq (id uid : Nat) (st : Status) (pos : Option Nat) (ca ua : Nat) :
    Request :=
  { id := id, user_id := uid, title := "t", content := none,
    department := "d", status := st, queue_position := pos,
    created_at := ca, updated_at := ua }

/-- `profiles.role`: 'employee', 'approver' or 'admin'. -/
inductive Role where
  | employee
  | approver
  | admin
deriving DecidableEq, Repr, Inhabited

/-- An authenticated principal: `auth.uid()` plus the profile role. -/
structure Principal where
  id : Nat
  role : Role
deriving DecidableEq, Repr, Inhabited

/-- Row-level security for UPDATE on `approval_requests`: policies are
OR-ed — "Users can update their own requests" (`auth.uid() = user_id`)
or "Approvers can update request status" (role in
('approver','admin')). -/
def rlsCanUpdateRequest (p : Principal) (row : Request) : Bool :=
  p.id == row.user_id || p.role == .approver || p.role == .admin

/-- The SET list issued by `handleApprovalAction`:
`update({ status: action })`. -/
def decideSet (d : Status) : UpdateSpec :=
  { setsStatus := true, newStatus := d,
    setsTitle := false, newTitle := "",
    setsContent := false, newContent := none,
    setsPos := false, newPos := none }

/-- A decision issued directly against the Request Store: the raw
`UPDATE approval_requests SET status = d WHERE id = tid`, guarded only
by row-level security.  There is no check that the row is still
pending. -/
def decideAtStore (db : DB) (p : Principal) (tid : Nat) (d : Status)
    (now : Nat) : DB :=
  match db.find? (fun r => r.id == tid) with
  | none => db
  | some row =>
    if rlsCanUpdateRequest p row then updateRow db tid (decideSet d) now
    else db

/-- One row of `public.approval_actions`. -/
structure ApprovalAction where
  id : Nat
  request_id : Nat
  approver_id : Nat
  action : Status
  comment : Option String
deriving DecidableEq, Repr, Inhabited

/-- RLS for INSERT on `approval_actions`: "Approvers can create approval
actions" (`auth.uid() = approver_id` and role in
('approver','admin')). -/
def rlsCanInsertAction (p : Principal) (a : ApprovalAction) : Bool :=
  p.id == a.approver_id && (p.role == .approver || p.role == .admin)

/-- `handleApprovalAction` from `ApprovalQueue.tsx`: a client-side role
check, then the status UPDATE, then an unconditional INSERT of the
action record.  No pending-state check exists anywhere on this path. -/
def handleApprovalAction (db : DB) (acts : List ApprovalAction)
    (p : Principal) (tid : Nat) (d : Status) (aid now : Nat) :
    DB × List ApprovalAction :=
  if p.role == .approver || p.role == .admin then
    let db1 := decideAtStore db p tid d now
    let a : ApprovalAction :=
      { id := aid, request_id := tid, approver_id := p.id, action := d,
        comment := none }
    (db1, if rlsCanInsertAction p a then acts ++ [a] else acts)
  else (db, acts)

/-- The fields a `handleSubmit` call provides for the INSERT (a missing
value is a SQL NULL). -/
structure SubmitInput where
  user_id : Option Nat
  title : Option String
  content : Option String
  department : Option String
deriving DecidableEq, Repr, Inhabited

/-- The NOT NULL constraints of `approval_requests`: `user_id`, `title`
and `department` must be non-null.  No constraint excludes the empty
string. -/
def notNullOK (i : SubmitInput) : Bool :=
  i.user_id.isSome && i.title.isSome && i.department.isSome

/-- `submit`: the INSERT issued by `handleSubmit` with
`status: 'pending'`.  A NOT NULL violation is returned as a structured
error (`none`) and creates no row; otherwise the row is inserted and the
queue trigger assigns its position. -/
def submit (db : DB) (i : SubmitInput) (rid t now : Nat) : Option DB :=
  if notNullOK i then
    some (insertRequest db
      { id := rid, user_id := i.user_id.getD 0, title := i.title.getD "",
        content := i.content, department := i.department.getD "",
        status := .pending, queue_position := none,
        created_at := t, updated_at := now } now)
  else none

theorem keyLt_irrefl (r : Request) : keyLt r r = false := by
  simp [keyLt]

theorem keyLt_trans {a b c : Request} (h1 : keyLt a b = true)
    (h2 : keyLt b c = true) : keyLt a c = true := by
  simp only [keyLt, Bool.or_eq_true, Bool.and_eq_true, decide_eq_true_eq,
    beq_iff_eq] at *
  omega

theorem keyLt_total {a b : Request} (h : a.id ≠ b.id) :
    keyLt a b = true ∨ keyLt b a = true := by
  simp only [keyLt, Bool.or_eq_true, Bool.and_eq_true, decide_eq_true_eq,
    beq_iff_eq]
  omega

theorem keyLt_congr (x : Request) {a b : Request}
    (h1 : a.created_at = b.created_at) (h2 : a.id = b.id) :
    keyLt x a = keyLt x b := by
  simp [keyLt, h1, h2]

theorem keyLt_congr_left (x : Request) {a b : Request}
    (h1 : a.created_at = b.created_at) (h2 : a.id = b.id) :
    keyLt a x = keyLt b x := by
  simp [keyLt, h1, h2]

theorem rankIn_one_le (S : List Request) (r : Request) : 1 ≤ rankIn S r :=
  Nat.le_add_right 1 _

theorem rankIn_le_length {S : List Request} {r : Request} (h : r ∈ S) :
    rankIn S r ≤ S.length := by
  have hlt : (S.filter (fun s => keyLt s r)).length < S.length :=
    List.length_filter_lt_length_iff_exists.mpr
      ⟨r, h, by simp [keyLt_irrefl r]⟩
  simp only [rankIn]
  omega

theorem rankIn_congr (S : List Request) {a b : Request}
    (h1 : a.created_at = b.created_at) (h2 : a.id = b.id) :
    rankIn S a = rankIn S b := by
  unfold rankIn
  rw [List.filter_congr (fun s _ => keyLt_congr s h1 h2)]

theorem rankIn_lt_rankIn {S : List Request} {a b : Request} (ha : a ∈ S)
    (hab : keyLt a b = true) : rankIn S a < rankIn S b := by
  have hsub : S.filter (fun s => keyLt s a)
      = (S.filter (fun s => keyLt s b)).filter (fun s => keyLt s a) := by
    rw [List.filter_filter]
    apply List.filter_congr
    intro s _
    cases h : keyLt s a with
    | false => simp
    | true => simp [keyLt_trans h hab]
  have hmem : a ∈ S.filter (fun s => keyLt s b) :=
    List.mem_filter.mpr ⟨ha, hab⟩
  have hlt : ((S.filter (fun s => keyLt s b)).filter
      (fun s => keyLt s a)).length < (S.filter (fun s => keyLt s b)).length :=
    List.length_filter_lt_length_iff_exists.mpr
      ⟨a, hmem, by simp [keyLt_irrefl a]⟩
  simp only [rankIn]
  rw [hsub]
  omega

theorem rankIn_inj {S : List Request} {a b : Request}
    (hS : (S.map (fun r => r.id)).Nodup) (ha : a ∈ S) (hb : b ∈ S)
    (h : rankIn S a = rankIn S b) : a = b := by
  by_cases hid : a.id = b.id
  · exact List.inj_on_of_nodup_map hS ha hb hid
  · rcases keyLt_total hid with hlt | hlt
    · exact absurd h (Nat.ne_of_lt (rankIn_lt_rankIn ha hlt))
    · exact absurd h.symm (Nat.ne_of_lt (rankIn_lt_rankIn hb hlt))

/-- `ROW_NUMBER` over a set with distinct ids enumerates `1..n`. -/
theorem ranks_perm (S : List Request)
    (hS : (S.map (fun r => r.id)).Nodup) :
    (S.map (rankIn S)).Perm (List.range' 1 S.length) := by
  have hnd : S.Nodup := hS.of_map
  have h1 : (S.map (rankIn S)).Nodup :=
    (List.nodup_map_iff_inj_on hnd).mpr
      (fun x hx y hy hxy => rankIn_inj hS hx hy hxy)
  have h2 : S.map (rankIn S) ⊆ List.range' 1 S.length := by
    intro m hm
    rcases List.mem_map.mp hm with ⟨r, hr, rfl⟩
    refine List.mem_range'_1.mpr ⟨rankIn_one_le S r, ?_⟩
    have := rankIn_le_length hr
    omega
  have h3 := List.subperm_of_subset h1 h2
  exact h3.perm_of_length_le (by simp)

/-- If every pending row stores its own dense rank, the I1/P1/P2/P3
invariants hold. -/
theorem positionsOK_of_selfRanked (db : DB)
    (hnd : ((pendingList db).map (fun r => r.id)).Nodup)
    (hr : selfRanked (pendingList db)) : positionsOK db := by
  refine ⟨?_, ?_, ?_⟩
  · have hmap : (pendingList db).map posOf
        = (pendingList db).map (rankIn (pendingList db)) :=
      List.map_eq_map_iff.mpr (fun r hrm => by simp [posOf, hr r hrm])
    rw [hmap]
    exact ranks_perm (pendingList db) hnd
  · intro a ha b hb hab
    have hya := hr a ha
    have hyb := hr b hb
    simp only [posOf, hya, hyb, Option.getD_some]
    exact rankIn_lt_rankIn ha (by simp [keyLt, hab])
  · intro a ha
    rw [hr a ha]
    simp

theorem reindexRow_id (S : List Request) (now : Nat) (excl : Option Nat)
    (r : Request) : (reindexRow S now excl r).id = r.id := by
  unfold reindexRow
  split <;> rfl

theorem reindexRow_status (S : List Request) (now : Nat) (excl : Option Nat)
    (r : Request) : (reindexRow S now excl r).status = r.status := by
  unfold reindexRow
  split <;> rfl

theorem reindexRow_created_at (S : List Request) (now : Nat)
    (excl : Option Nat) (r : Request) :
    (reindexRow S now excl r).created_at = r.created_at := by
  unfold reindexRow
  split <;> rfl

theorem reindexRow_pos (S : List Request) (now : Nat) (excl : Option Nat)
    (r : Request) (hp : isPending r = true)
    (he : (excl != some r.id) = true) :
    (reindexRow S now excl r).queue_position = some (rankIn S r) := by
  unfold reindexRow
  split
  · rfl
  next h =>
    simp only [hp, he, Bool.true_and, bne_iff_ne, ne_eq, not_not] at h
    exact h

/-- On an INSERT the CTE covers the whole pending set. -/
theorem reindexSet_none (db : DB) : reindexSet db none = pendingList db := by
  unfold reindexSet pendingList
  apply List.filter_congr
  intro r _
  simp

theorem rankIn_map_eq (S : List Request) (now : Nat) (excl : Option Nat)
    (r' : Request) :
    rankIn (S.map (reindexRow S now excl)) r' = rankIn S r' := by
  unfold rankIn
  rw [List.filter_map, List.length_map]
  congr 1
  refine congrArg List.length (List.filter_congr ?_)
  intro s _
  simp only [Function.comp_apply]
  exact keyLt_congr_left r' (reindexRow_created_at S now excl s)
    (reindexRow_id S now excl s)

theorem pendingList_reindex (db : DB) (excl : Option Nat) (now : Nat) :
    pendingList (reindex db excl now)
      = (pendingList db).map (reindexRow (reindexSet db excl) now excl) := by
  unfold pendingList reindex
  rw [List.filter_map]
  congr 1
  apply List.filter_congr
  intro r _
  simp only [Function.comp_apply, isPending, reindexRow_status]

theorem earlierCount_reindex (db : DB) (excl : Option Nat) (now t : Nat) :
    earlierCount (reindex db excl now) t = earlierCount db t := by
  unfold earlierCount reindex
  rw [List.filter_map, List.length_map]
  congr 1
  apply List.filter_congr
  intro r _
  simp only [Function.comp_apply, isPending, reindexRow_status,
    reindexRow_created_at]

theorem isPending_iff {r : Request} :
    isPending r = true ↔ r.status = .pending := by
  simp [isPending]

theorem keyLt_true_of_created_lt {a b : Request}
    (h : a.created_at < b.created_at) : keyLt a b = true := by
  simp [keyLt, h]

theorem keyLt_false_of_created_lt {a b : Request}
    (h : b.created_at < a.created_at) : keyLt a b = false := by
  simp only [keyLt, Bool.or_eq_false_iff, Bool.and_eq_false_iff,
    decide_eq_false_iff_not, not_lt, beq_eq_false_iff_ne, ne_eq]
  omega

theorem rankIn_append (A B : List Request) (r : Request) :
    rankIn (A ++ B) r
      = rankIn A r + (B.filter (fun s => keyLt s r)).length := by
  unfold rankIn
  rw [List.filter_append, List.length_append]
  omega

theorem reindexMap_ids (S : List Request) (now : Nat) (excl : Option Nat) :
    (S.map (reindexRow S now excl)).map (fun r => r.id)
      = S.map (fun r => r.id) := by
  rw [List.map_map]
  exact List.map_eq_map_iff.mpr (fun r _ => reindexRow_id S now excl r)

/-- After the inner UPDATE, every CTE row stores exactly its rank. -/
theorem selfRanked_reindexSet_map (db : DB) (excl : Option Nat) (now : Nat) :
    selfRanked ((reindexSet db excl).map
      (reindexRow (reindexSet db excl) now excl)) := by
  intro r' hr'
  rcases List.mem_map.mp hr' with ⟨r, hr, rfl⟩
  have h2 := (List.mem_filter.mp hr).2
  rw [Bool.and_eq_true] at h2
  rw [reindexRow_pos (reindexSet db excl) now excl r h2.1 h2.2,
    rankIn_map_eq,
    rankIn_congr (reindexSet db excl)
      (reindexRow_created_at (reindexSet db excl) now excl r)
      (reindexRow_id (reindexSet db excl) now excl r)]

theorem pendingList_append (A B : DB) :
    pendingList (A ++ B) = pendingList A ++ pendingList B :=
  List.filter_append A B

/-- Shape of the table after an INSERT of a pending row. -/
theorem pendingList_insert (db : DB) (new : Request) (now : Nat)
    (hp : isPending new = true) :
    pendingList (insertRequest db new now)
      = (pendingList db).map (reindexRow (pendingList db) now none)
        ++ [{ new with
            queue_position := some (1 + earlierCount db new.created_at) }] := by
  unfold insertRequest
  rw [if_pos hp]
  show pendingList (reindex db none now ++ [_]) = _
  rw [earlierCount_reindex, pendingList_append, pendingList_reindex,
    reindexSet_none]
  congr 1
  have hp' : isPending { new with
      queue_position := some (1 + earlierCount db new.created_at) } = true := hp
  simp [pendingList, hp']

/-- When the new row arrives strictly after every existing pending row
(the default `created_at = now()` case), the count equals the size of the
pending set. -/
theorem earlierCount_all (db : DB) (t : Nat)
    (hlt : ∀ r ∈ db, isPending r = true → r.created_at < t) :
    earlierCount db t = (pendingList db).length := by
  unfold earlierCount pendingList
  congr 1
  apply List.filter_congr
  intro r hr
  cases hpr : isPending r with
  | false => simp
  | true => simp [hlt r hr hpr]

/-- After an INSERT of a pending row arriving last, every pending row of
the new table stores its rank within the new pending set. -/
theorem insert_selfRanked (db : DB) (new : Request) (now : Nat)
    (hp : isPending new = true)
    (hlt : ∀ r ∈ db, isPending r = true → r.created_at < new.created_at) :
    selfRanked (pendingList (insertRequest db new now)) := by
  rw [pendingList_insert db new now hp]
  intro r' hr'
  rcases List.mem_append.mp hr' with hmem | hmem
  · rcases List.mem_map.mp hmem with ⟨r, hr, rfl⟩
    have hrdb : r ∈ db := (List.mem_filter.mp hr).1
    have hrp : isPending r = true := (List.mem_filter.mp hr).2
    rw [reindexRow_pos (pendingList db) now none r hrp rfl, rankIn_append]
    have hfr : (reindexRow (pendingList db) now none r).created_at
        = r.created_at := reindexRow_created_at _ _ _ r
    have hnil : List.length (List.filter
        (fun s => keyLt s (reindexRow (pendingList db) now none r))
        [{ new with
          queue_position := some (1 + earlierCount db new.created_at) }])
        = 0 := by
      have hk : keyLt
          { new with
            queue_position := some (1 + earlierCount db new.created_at) }
          (reindexRow (pendingList db) now none r) = false :=
        keyLt_false_of_created_lt (by rw [hfr]; exact hlt r hrdb hrp)
      simp [hk]
    rw [hnil, rankIn_map_eq,
      rankIn_congr (pendingList db) hfr (reindexRow_id _ _ _ r),
      Nat.add_zero]
  · have hr'eq : r' = { new with
        queue_position := some (1 + earlierCount db new.created_at) } := by
      simpa using hmem
    subst hr'eq
    rw [rankIn_append]
    have h1 : List.length (List.filter
        (fun s => keyLt s { new with
          queue_position := some (1 + earlierCount db new.created_at) })
        [{ new with
          queue_position := some (1 + earlierCount db new.created_at) }])
        = 0 := by
      simp [keyLt_irrefl]
    have h2 : rankIn ((pendingList db).map
          (reindexRow (pendingList db) now none))
        { new with
          queue_position := some (1 + earlierCount db new.created_at) }
        = 1 + (pendingList db).length := by
      rw [rankIn_map_eq]
      unfold rankIn
      congr 2
      apply List.filter_eq_self.mpr
      intro s hs
      exact keyLt_true_of_created_lt
        (hlt s (List.mem_filter.mp hs).1 (List.mem_filter.mp hs).2)
    rw [h1, h2, Nat.add_zero]
    show some (1 + earlierCount db new.created_at) = _
    rw [earlierCount_all db new.created_at hlt]

/-- Shape of the pending set after an UPDATE that moves a pending row
out of `pending`: the remaining pending rows are exactly the CTE rows,
reindexed. -/
theorem pendingList_update_out (db : DB) (tid : Nat) (u : UpdateSpec)
    (now : Nat) (old : Request)
    (hfind : db.find? (fun r => r.id == tid) = some old)
    (hold : isPending old = true)
    (hs : u.setsStatus = true)
    (hns : (u.newStatus == Status.pending) = false) :
    pendingList (updateRow db tid u now)
      = (reindexSet db (some tid)).map
          (reindexRow (reindexSet db (some tid)) now (some tid)) := by
  have h1 : old.status = .pending := isPending_iff.mp hold
  have h2 : u.newStatus ≠ .pending := by
    intro he
    rw [he] at hns
    simp at hns
  have hnew1status :
      ({ applySet u old with updated_at := now } : Request).status
        = u.newStatus := by
    simp [applySet, hs]
  have hcond : (queueTriggerFires u
      && triggerCond old { applySet u old with updated_at := now })
        = true := by
    rw [Bool.and_eq_true]
    refine ⟨hs, ?_⟩
    simp only [triggerCond, Bool.and_eq_true, Bool.or_eq_true]
    constructor
    · left
      rw [hnew1status, h1, bne_iff_ne]
      exact fun he => h2 he.symm
    · left
      rw [h1]
      simp
  have hpend2 :
      isPending ({ applySet u old with updated_at := now } : Request)
        = false := by
    show (({ applySet u old with updated_at := now } :
        Request).status == Status.pending) = false
    rw [hnew1status]
    exact hns
  simp only [updateRow, hfind, hcond, if_true, hpend2, Bool.false_eq_true,
    if_false]
  unfold pendingList reindex
  rw [List.map_map, List.filter_map]
  have hfilter : db.filter ((fun r => isPending r) ∘
        ((fun r => if (r.id == tid) = true then
            { applySet u old with updated_at := now } else r)
          ∘ reindexRow (reindexSet db (some tid)) now (some tid)))
      = reindexSet db (some tid) := by
    unfold reindexSet
    apply List.filter_congr
    intro r _
    simp only [Function.comp_apply]
    rw [reindexRow_id]
    by_cases hc : r.id = tid
    · have hcb : (r.id == tid) = true := by simp [hc]
      rw [if_pos hcb, hpend2]
      subst hc
      simp
    · have hcb : (r.id == tid) = false := by simp [hc]
      rw [hcb]
      simp only [Bool.false_eq_true, if_false]
      have hstat : ∀ S : List Request,
          isPending (reindexRow S now (some tid) r) = isPending r := by
        intro S
        show ((reindexRow _ _ _ r).status == Status.pending) = _
        rw [reindexRow_status]
        rfl
      rw [hstat]
      have : (some tid != some r.id) = true := by
        simp [bne]
        exact fun he => hc he.symm
      rw [this, Bool.and_true]
  rw [hfilter]
  apply List.map_eq_map_iff.mpr
  intro r hr
  have hrid := (List.mem_filter.mp hr).2
  rw [Bool.and_eq_true] at hrid
  have hne : r.id ≠ tid := by
    have := hrid.2
    simp [bne] at this
    exact fun he => this he.symm
  simp only [Function.comp_apply]
  rw [reindexRow_id]
  have hcb : (r.id == tid) = false := by simp [hne]
  rw [hcb]
  simp

theorem pending_ids_nodup_insert (db : DB) (new : Request) (now : Nat)
    (hp : isPending new = true)
    (hnd : ((db ++ [new]).map (fun r => r.id)).Nodup) :
    ((pendingList (insertRequest db new now)).map (fun r => r.id)).Nodup := by
  rw [pendingList_insert db new now hp, List.map_append, reindexMap_ids]
  rw [List.map_append] at hnd
  exact List.Sublist.nodup
    (List.Sublist.append ((List.filter_sublist db).map _)
      (List.Sublist.refl _)) hnd

/-- C1 counterexample: inserting a pending request whose `created_at` is
strictly earlier than an existing pending request's gives both rows queue
position 1, so the positions are not the dense range `1..n`: the claim
fails as stated for such an insert. -/
theorem c1_counterexample :
    ¬ positionsOK (insertRequest [mkReq 0 10 .pending (some 1) 5 0]
      (mkReq 1 11 .pending none 3 0) 9) := by
  decide

/-- C1 (amended): with distinct ids, the pending positions are exactly
the dense range `1..n` ordered by ascending `created_at` (a) after every
insert of a pending request whose `created_at` is strictly later than
every existing pending request's, and (b) after every status transition
out of `pending` processed by `update_queue_positions`. -/
theorem c1_dense_after_ops :
    (∀ (db : DB) (new : Request) (now : Nat),
        ((db ++ [new]).map (fun r => r.id)).Nodup →
        isPending new = true →
        (∀ r ∈ db, isPending r = true → r.created_at < new.created_at) →
        positionsOK (insertRequest db new now))
    ∧ (∀ (db : DB) (tid : Nat) (u : UpdateSpec) (now : Nat)
        (old : Request),
        (db.map (fun r => r.id)).Nodup →
        db.find? (fun r => r.id == tid) = some old →
        isPending old = true →
        u.setsStatus = true → (u.newStatus == Status.pending) = false →
        positionsOK (updateRow db tid u now)) := by
  constructor
  · intro db new now hnd hp hlt
    exact positionsOK_of_selfRanked _
      (pending_ids_nodup_insert db new now hp hnd)
      (insert_selfRanked db new now hp hlt)
  · intro db tid u now old hnd hfind hold hs hns
    apply positionsOK_of_selfRanked
    · rw [pendingList_update_out db tid u now old hfind hold hs hns,
        reindexMap_ids]
      exact List.Sublist.nodup ((List.filter_sublist db).map _) hnd
    · rw [pendingList_update_out db tid u now old hfind hold hs hns]
      exact selfRanked_reindexSet_map db (some tid) now

/-- C1 witness: the amended invariant holds on a concrete insert and on a
concrete approval. -/
theorem c1_dense_after_ops_witness :
    positionsOK (insertRequest [mkReq 0 10 .pending (some 1) 0 0]
      (mkReq 1 11 .pending none 5 0) 9)
    ∧ positionsOK (updateRow
        [mkReq 0 10 .pending (some 1) 0 0, mkReq 1 11 .pending (some 2) 5 0]
        0 (decideSet .approved) 9) :=
  ⟨c1_dense_after_ops.1 _ _ 9 (by decide) (by decide) (by decide),
   c1_dense_after_ops.2 _ 0 _ 9 (mkReq 0 10 .pending (some 1) 0 0)
     (by decide) (by decide) rfl rfl rfl⟩

/-- C5 (confirmed): an insert of a pending request assigns it exactly
`1 + count(pending requests created strictly earlier)`, counted over the
table without the new row (which is not yet visible in the BEFORE INSERT
trigger). -/
theorem c5_insert_position_formula (db : DB) (new : Request) (now : Nat)
    (hp : isPending new = true) :
    (insertRequest db new now).getLast?
      = some { new with
          queue_position := some (1 + earlierCount db new.created_at) } := by
  unfold insertRequest
  rw [if_pos hp]
  show (reindex db none now ++ [_]).getLast? = _
  rw [List.getLast?_concat, earlierCount_reindex]

/-- C5 witness: a concrete insert after one earlier pending request gets
position `1 + 1 = 2`. -/
theorem c5_insert_position_formula_witness :
    (insertRequest [mkReq 0 10 .pending (some 1) 0 0]
        (mkReq 1 11 .pending none 5 0) 9).getLast?
      = some { mkReq 1 11 .pending none 5 0 with
          queue_position := some (1 + earlierCount
            [mkReq 0 10 .pending (some 1) 0 0] 5) } :=
  c5_insert_position_formula _ _ 9 rfl

/-- C6 (confirmed): when every pending request already stores its dense
rank by creation timestamp, the maintainer's recompute rewrites zero rows
(every row is skipped by the rank-equals-stored-position guard) and the
table is unchanged. -/
theorem c6_maintainer_idempotent (db : DB) (now : Nat)
    (h : selfRanked (pendingList db)) :
    reindexWrites db none = [] ∧ reindex db none now = db := by
  have hguard : ∀ r ∈ db, (isPending r && (none != some r.id)
      && r.queue_position != some (rankIn (reindexSet db none) r))
        = false := by
    intro r hr
    cases hp : isPending r with
    | false => simp [hp]
    | true =>
      have hm : r ∈ pendingList db := List.mem_filter.mpr ⟨hr, hp⟩
      have hpos := h r hm
      rw [reindexSet_none]
      simp [hp, hpos]
  constructor
  · unfold reindexWrites
    rw [List.filter_eq_nil_iff.mpr (fun a ha => by simp [hguard a ha])]
    rfl
  · unfold reindex
    have hrow : ∀ r ∈ db,
        reindexRow (reindexSet db none) now none r = r := by
      intro r hr
      unfold reindexRow
      rw [if_neg (by simp [hguard r hr])]
    have hmap : db.map (reindexRow (reindexSet db none) now none)
        = db.map (fun r => r) :=
      List.map_eq_map_iff.mpr (fun r hr => hrow r hr)
    rw [hmap, List.map_id']

/-- C6 witness: on a correctly ranked two-row pending set the recompute
writes nothing. -/
theorem c6_maintainer_idempotent_witness :
    reindexWrites [mkReq 0 10 .pending (some 1) 0 0,
      mkReq 1 11 .pending (some 2) 5 0] none = []
    ∧ reindex [mkReq 0 10 .pending (some 1) 0 0,
        mkReq 1 11 .pending (some 2) 5 0] none 9
      = [mkReq 0 10 .pending (some 1) 0 0,
         mkReq 1 11 .pending (some 2) 5 0] :=
  c6_maintainer_idempotent _ 9 (by decide)

/-- C7 (confirmed): an UPDATE whose SET list has neither `status` nor
`queue_position` (title/content only) does not fire the queue trigger
(`UPDATE OF status`), and no row's queue position changes. -/
theorem c7_unrelated_update_frame (db : DB) (tid : Nat) (u : UpdateSpec)
    (now : Nat) (hnd : (db.map (fun r => r.id)).Nodup)
    (hns : u.setsStatus = false) (hnp : u.setsPos = false) :
    queueTriggerFires u = false
    ∧ (updateRow db tid u now).map (fun r => (r.id, r.queue_position))
        = db.map (fun r => (r.id, r.queue_position)) := by
  refine ⟨hns, ?_⟩
  cases hfind : db.find? (fun r => r.id == tid) with
  | none => simp only [updateRow, hfind]
  | some old =>
    have hqf : (queueTriggerFires u
        && triggerCond old { applySet u old with updated_at := now })
          = false := by
      simp [queueTriggerFires, hns]
    simp only [updateRow, hfind, hqf, Bool.false_eq_true, if_false]
    rw [List.map_map]
    apply List.map_eq_map_iff.mpr
    intro r hr
    simp only [Function.comp_apply]
    by_cases hc : (r.id == tid) = true
    · rw [if_pos hc]
      have hoid := List.find?_some hfind
      simp only [beq_iff_eq] at hoid
      have hom : old ∈ db := List.mem_of_find?_eq_some hfind
      have hre : r = old := by
        apply List.inj_on_of_nodup_map hnd hr hom
        rw [beq_iff_eq] at hc
        rw [hc, hoid]
      subst hre
      simp [applySet, hnp]
    · rw [if_neg hc]

/-- C7 witness: a concrete title-only update leaves both positions
untouched. -/
theorem c7_unrelated_update_frame_witness :
    queueTriggerFires (titleOnlySet "x") = false
    ∧ (updateRow [mkReq 0 10 .pending (some 1) 0 0,
          mkReq 1 11 .pending (some 2) 5 0] 0
        (titleOnlySet "x") 9).map
          (fun r => (r.id, r.queue_position))
      = [mkReq 0 10 .pending (some 1) 0 0,
         mkReq 1 11 .pending (some 2) 5 0].map
          (fun r => (r.id, r.queue_position)) :=
  c7_unrelated_update_frame _ 0 _ 9 (by decide) rfl rfl

/-- C8 counterexample: deleting the middle of three pending requests
leaves positions `{1, 3}` — no trigger fires on DELETE in the final
schema, so the gap is not closed and the claim fails as stated. -/
theorem c8_counterexample :
    ¬ positionsOK (deleteRequest
      [mkReq 0 10 .pending (some 1) 0 0, mkReq 1 11 .pending (some 2) 5 0,
       mkReq 2 12 .pending (some 3) 9 0] 1) := by
  decide

/-- C8 (amended): a DELETE removes exactly the targeted row and leaves
every remaining row — including its queue position — unchanged (no
reindex runs on DELETE); the dense ranking is restored by the next status
transition out of `pending`. -/
theorem c8_delete_no_reindex :
    (∀ (db : DB) (tid : Nat) (r : Request),
        r ∈ deleteRequest db tid ↔ r ∈ db ∧ r.id ≠ tid)
    ∧ (∀ (db : DB) (tid tid2 : Nat) (u : UpdateSpec) (now : Nat)
        (old : Request),
        ((deleteRequest db tid).map (fun r => r.id)).Nodup →
        (deleteRequest db tid).find? (fun r => r.id == tid2) = some old →
        isPending old = true →
        u.setsStatus = true → (u.newStatus == Status.pending) = false →
        positionsOK (updateRow (deleteRequest db tid) tid2 u now)) := by
  constructor
  · intro db tid r
    unfold deleteRequest
    rw [List.mem_filter]
    simp [bne_iff_ne]
  · intro db tid tid2 u now old hnd hfind hold hs hns
    apply positionsOK_of_selfRanked
    · rw [pendingList_update_out _ tid2 u now old hfind hold hs hns,
        reindexMap_ids]
      exact List.Sublist.nodup ((List.filter_sublist _).map _) hnd
    · rw [pendingList_update_out _ tid2 u now old hfind hold hs hns]
      exact selfRanked_reindexSet_map _ (some tid2) now

/-- C8 witness: concrete delete keeps the other row as-is; a following
rejection restores density. -/
theorem c8_delete_no_reindex_witness :
    (mkReq 0 10 .pending (some 1) 0 0
        ∈ deleteRequest [mkReq 0 10 .pending (some 1) 0 0,
            mkReq 1 11 .pending (some 2) 5 0] 1
      ↔ mkReq 0 10 .pending (some 1) 0 0
          ∈ [mkReq 0 10 .pending (some 1) 0 0,
             mkReq 1 11 .pending (some 2) 5 0]
        ∧ (mkReq 0 10 .pending (some 1) 0 0).id ≠ 1)
    ∧ positionsOK (updateRow (deleteRequest
        [mkReq 0 10 .pending (some 1) 0 0, mkReq 1 11 .pending (some 2) 5 0,
         mkReq 2 12 .pending (some 3) 9 0] 1) 0 (decideSet .rejected) 9) :=
  ⟨c8_delete_no_reindex.1 _ 1 _,
   c8_delete_no_reindex.2 _ 1 0 (decideSet .rejected) 9
     (mkReq 0 10 .pending (some 1) 0 0) (by decide) (by decide) rfl rfl rfl⟩

/-- C2 evaluation: approving a pending request at position 2 leaves its
`queue_position` at `some 2` while its status becomes `approved` — the
trigger only assigns positions when `NEW.status = 'pending'` and never
clears them on the way out, so the position is not cleared in the same
transaction and the defined-iff-pending invariant is violated. -/
theorem c2_decide_keeps_stale_position :
    (decideAtStore [mkReq 0 10 .pending (some 1) 0 0,
        mkReq 1 11 .pending (some 2) 5 0] ⟨99, .approver⟩ 1 .approved 9).map
      (fun r => (r.status, r.queue_position))
      = [(.pending, some 1), (.approved, some 2)] := by
  decide

/-- C3 evaluation: a second decision on an already-approved request is
not rejected with any conflict error: the raw status UPDATE succeeds
(overwriting `approved` with `rejected`) and a second Approval Action row
referencing the same request is appended. -/
theorem c3_second_decision_overwrites :
    handleApprovalAction [mkReq 0 10 .approved (some 1) 0 0]
        [⟨100, 0, 99, .approved, none⟩] ⟨99, .approver⟩ 0 .rejected 101 9
      = ([mkReq 0 10 .rejected (some 1) 0 9],
         [⟨100, 0, 99, .approved, none⟩, ⟨101, 0, 99, .rejected, none⟩]) := by
  decide

/-- C4 evaluation: the RLS policy "Users can update their own requests"
passes for an `employee` principal on their own row, so a decide issued
directly against the store by a principal with neither `approver` nor
`admin` changes the request's status — the guard does not hold at the
data-access boundary. -/
theorem c4_employee_updates_own_status :
    rlsCanUpdateRequest ⟨10, .employee⟩ (mkReq 0 10 .pending (some 1) 0 0)
      = true
    ∧ (decideAtStore [mkReq 0 10 .pending (some 1) 0 0] ⟨10, .employee⟩ 0
        .approved 9).map (fun r => r.status) = [.approved] := by
  decide

/-- C9 counterexample: a submit whose title is the empty string (with
submitter and department present) succeeds and creates a row — `NOT
NULL` does not exclude the empty string and no other check exists, so
the claim fails for empty titles. -/
theorem c9_counterexample :
    submit [] ⟨some 1, some "", none, some "G"⟩ 7 3 9
      = some [{ id := 7, user_id := 1, title := "", content := none,
                department := "G", status := .pending,
                queue_position := some 1,
                created_at := 3, updated_at := 9 }] := by
  decide

/-- C9 (amended): a submit whose submitter, title or department is
missing (SQL NULL) fails with a structured error and creates no row; an
empty-string title is not rejected. -/
theorem c9_null_checks (db : DB) (i : SubmitInput) (rid t now : Nat)
    (h : i.user_id = none ∨ i.title = none ∨ i.department = none) :
    submit db i rid t now = none := by
  unfold submit
  rcases h with h | h | h <;> simp [notNullOK, h]

/-- C9 witness: submitting without a department is rejected. -/
theorem c9_null_checks_witness :
    submit [] ⟨some 1, some "vacation", none, none⟩ 7 3 9 = none :=
  c9_null_checks _ _ 7 3 9 (Or.inr (Or.inr rfl))

/-- C10 (confirmed): whenever the maintainer's recompute rewrites a
row's `queue_position`, the row-level `update_updated_at_column` trigger
also fires on that row, so its `updated_at` becomes the current time. -/
theorem c10_reindex_touches_updated_at (db : DB) (excl : Option Nat)
    (now : Nat) (hnd : (db.map (fun r => r.id)).Nodup) (r r' : Request)
    (hr : r ∈ db) (hr' : r' ∈ reindex db excl now) (hid : r'.id = r.id)
    (hchg : r'.queue_position ≠ r.queue_position) : r'.updated_at = now := by
  rcases List.mem_map.mp hr' with ⟨s, hs, rfl⟩
  have hsid : s.id = r.id := by
    rw [← reindexRow_id (reindexSet db excl) now excl s]
    exact hid
  have hse : s = r := List.inj_on_of_nodup_map hnd hs hr hsid
  subst hse
  by_cases hg : (isPending s && excl != some s.id
      && s.queue_position != some (rankIn (reindexSet db excl) s)) = true
  · unfold reindexRow
    rw [if_pos hg]
  · exfalso
    apply hchg
    unfold reindexRow
    rw [if_neg hg]

/-- C10 witness: reindexing a one-row table at time 7 rewrites its
position to 1 and stamps `updated_at = 7`. -/
theorem c10_reindex_touches_updated_at_witness :
    mkReq 0 10 .pending (some 1) 0 7
      ∈ reindex [mkReq 0 10 .pending none 0 0] none 7
    ∧ (mkReq 0 10 .pending (some 1) 0 7).updated_at = 7 :=
  ⟨by decide,
   c10_reindex_touches_updated_at [mkReq 0 10 .pending none 0 0] none 7
     (by decide) (mkReq 0 10 .pending none 0 0)
     (mkReq 0 10 .pending (some 1) 0 7) (by decide) (by decide) rfl
     (by decide)⟩

end ApprovalLane
